import Mathlib

/-
Verification development for the SpendIQ frontend category engine
(src/frontend/src/ui/App.tsx, Dashboard.tsx, storage.ts).

JavaScript records (plain objects used as string-keyed maps) are embedded as
insertion-ordered association lists with unique keys: assigning to an existing
key replaces its value in place, assigning a fresh key appends.  JavaScript
numbers are embedded as rationals, strings as Lean strings with character-level
trim / case / substring helpers mirroring String.prototype.trim, toLowerCase,
toUpperCase and includes.
-/

namespace SpendIQ

/-- Characters dropped by String.prototype.trim and matched by the /\s+/ class. -/
def trimChars (l : List Char) : List Char :=
  ((l.dropWhile Char.isWhitespace).reverse.dropWhile Char.isWhitespace).reverse

/-- Embedding of String.prototype.trim. -/
def strTrim (s : String) : String :=
  ⟨trimChars s.toList⟩

/-- Embedding of String.prototype.toLowerCase. -/
def strLower (s : String) : String :=
  ⟨s.toList.map Char.toLower⟩

/-- Embedding of String.prototype.toUpperCase. -/
def strUpper (s : String) : String :=
  ⟨s.toList.map Char.toUpper⟩

/-- Does pat occur as a contiguous segment of hay (String.prototype.includes)? -/
def listContainsSeg (hay pat : List Char) : Bool :=
  (List.range (hay.length + 1)).any (fun i => pat.isPrefixOf (hay.drop i))

/-- Embedding of hay.includes(pat). -/
def strContainsSub (hay pat : String) : Bool :=
  listContainsSeg hay.toList pat.toList

/-- Split on the two-character separator used by key.split with a two-bar
separator; leftmost match first, like the JavaScript split. -/
def splitSegsAux : List Char → List Char → List (List Char)
  | [], acc => [acc.reverse]
  | '|' :: '|' :: rest, acc => acc.reverse :: splitSegsAux rest []
  | c :: rest, acc => splitSegsAux rest (c :: acc)

/-- Embedding of key.split with the two-bar separator. -/
def splitOnSep (s : String) : List String :=
  (splitSegsAux s.toList []).map (fun l => ⟨l⟩)

/-- Insertion-ordered string-keyed record: assigning an existing key replaces
its value in place, a fresh key is appended (JavaScript object assignment). -/
def recordInsert {α : Type} : List (String × α) → String → α → List (String × α)
  | [], k, v => [(k, v)]
  | p :: rest, k, v => if p.1 == k then (k, v) :: rest else p :: recordInsert rest k v

/-- Record lookup (first entry with the key). -/
def recordLookup {α : Type} : List (String × α) → String → Option α
  | [], _ => none
  | p :: rest, k => if p.1 == k then some p.2 else recordLookup rest k

/-- Embedding of the object spread merge of two records: entries of the first
record in order, entries of the second inserted over them (second wins). -/
def recordMerge {α : Type} (a b : List (String × α)) : List (String × α) :=
  b.foldl (fun acc p => recordInsert acc p.1 p.2) a

/-- First-occurrence deduplication, the order produced by inserting a list into
a JavaScript Set and reading it back. -/
def dedupFirstAux (seen : List String) : List String → List String
  | [] => []
  | x :: rest =>
    if seen.contains x then dedupFirstAux seen rest
    else x :: dedupFirstAux (x :: seen) rest

/-- Embedding of Array.from(new Set(list)). -/
def dedupFirst (l : List String) : List String :=
  dedupFirstAux [] l

/-- Override map: string keys to category names. -/
abbrev SRecord := List (String × String)

/-- Transaction direction, from types.ts. -/
inductive TxDirection where
  | debit
  | credit
deriving DecidableEq, Repr

/-- Transaction record, from src/frontend/src/ui/types.ts.  Optional fields are
Options; the amount (number | null) is an optional rational. -/
structure Transaction where
  date : String := ""
  title : String := ""
  merchant : String := ""
  method : Option String := none
  amount : Option ℚ := none
  currency : String := "RON"
  direction : TxDirection := TxDirection.debit
  category : Option String := none
  raw_lines : List String := []
deriving DecidableEq, Repr

/-- Statement details record, from types.ts. -/
structure StatementDetails where
  account_holder : Option String := none
  account_number : Option String := none
  account_type : Option String := none
  statement_period : Option String := none
deriving DecidableEq, Repr

/-- Reserved merchant segment marking alias entries (App.tsx). -/
def CATEGORY_ALIAS_MERCHANT : String := "__CATEGORY_ALIAS__"

/-- Default category list (App.tsx DEFAULT_CATEGORIES). -/
def DEFAULT_CATEGORIES : List String :=
  ["Groceries", "Restaurants", "Transport", "Transport/Fuel", "Utilities",
   "Internet/Phone", "Shopping", "Home/DIY", "Subscriptions", "Entertainment",
   "Bills", "Fees", "Taxes/Fees", "Loans", "Savings", "Transfers", "Other"]

/-- Embedding of App.tsx normalizeCategories: rewrite the exact name Dining to
Restaurants, trim, drop empties, deduplicate, append Other when missing. -/
def normalizeCategories (cats : List String) : List String :=
  let mapped := ((cats.map (fun c => if c == "Dining" then "Restaurants" else c)).map
    strTrim).filter (fun c => !(c == ""))
  let unique := dedupFirst mapped
  if unique.contains "Other" then unique else unique ++ ["Other"]

/-- Embedding of App.tsx categoryNameMatches on plain strings: trim both sides,
empty strings never match, otherwise exact or case-insensitive equality.  The
source's localeCompare with base sensitivity is embedded as case folding. -/
def categoryNameMatchesStr (value target : String) : Bool :=
  let a := strTrim value
  let b := strTrim target
  if a == "" || b == "" then false
  else if a == b then true
  else strLower a == strLower b

/-- categoryNameMatches applied to a string | null | undefined first argument
(String(value ?? '') in the source). -/
def categoryNameMatches (value : Option String) (target : String) : Bool :=
  categoryNameMatchesStr (value.getD "") target

/-- Embedding of App.tsx makeCategoryAliasKey. -/
def makeCategoryAliasKey (oldName : String) : String :=
  CATEGORY_ALIAS_MERCHANT ++ "||" ++ strTrim oldName

/-- Embedding of App.tsx extractCategoryAliases: keep entries whose first
key segment is the alias marker and whose trimmed old and new names are
non-empty. -/
def extractCategoryAliases (overrides : SRecord) : SRecord :=
  overrides.foldl (fun aliases p =>
    if (splitOnSep p.1).headD "" == CATEGORY_ALIAS_MERCHANT then
      if !(strTrim (((splitOnSep p.1).drop 1).headD "") == "") && !(strTrim p.2 == "") then
        recordInsert aliases (strTrim (((splitOnSep p.1).drop 1).headD "")) (strTrim p.2)
      else aliases
    else aliases) []

/-- The alias loop of applyCategoryAliases: walk the alias entries in order and
take the value of the first entry whose old name matches, with the break after
the first hit. -/
def aliasWalk : SRecord → String → String
  | [], c => c
  | p :: rest, c => if categoryNameMatchesStr c p.1 then p.2 else aliasWalk rest c

/-- The per-category body of App.tsx applyCategoryAliases: alias walk, then the
exact Dining to Restaurants rewrite, then the clamp to Other when the result is
outside the category set and Other is present. -/
def transformCategory (categories : List String) (aliases : SRecord) (raw : String) : String :=
  let mapped := aliasWalk aliases raw
  let mapped := if mapped == "Dining" then "Restaurants" else mapped
  if !(categories.contains mapped) && categories.contains "Other" then "Other" else mapped

/-- Embedding of App.tsx applyCategoryAliases: map the per-category transform
over the list, defaulting a missing category to Other, and keep the original
record when the category is unchanged. -/
def applyCategoryAliases (txs : List Transaction) (categories : List String)
    (aliases : SRecord) : List Transaction :=
  txs.map (fun t =>
    let mapped := transformCategory categories aliases (t.category.getD "Other")
    if t.category == some mapped then t else { t with category := some mapped })

/-- Embedding of App.tsx inferCategoryAliasesFromExistingData: for every
trimmed non-empty transaction category missing from the category set, collect
current categories related by case-insensitive containment either way, and
record an alias exactly when there is one candidate.  The candidate filter is
inlined at both use sites. -/
def inferCategoryAliasesFromExistingData (txs : List Transaction)
    (categories : List String) : SRecord :=
  let unknown := dedupFirst
    (((txs.map (fun t => strTrim (t.category.getD ""))).filter
      (fun c => !(c == ""))).filter (fun c => !(categories.contains c)))
  unknown.foldl (fun aliases oldName =>
    if (categories.filter (fun c =>
          strContainsSub (strLower c) (strLower oldName)
          || strContainsSub (strLower oldName) (strLower c))).length == 1 then
      recordInsert aliases oldName
        ((categories.filter (fun c =>
          strContainsSub (strLower c) (strLower oldName)
          || strContainsSub (strLower oldName) (strLower c))).headD "")
    else aliases) []

/-- Embedding of App.tsx normalizeIban / the Dashboard.tsx copy: strip all
whitespace and uppercase (the extra trim in the App.tsx copy is a no-op on a
whitespace-free string). -/
def normalizeIban (value : String) : String :=
  strUpper ⟨value.toList.filter (fun c => !c.isWhitespace)⟩

/-- Embedding of Dashboard.tsx txMentionsSavingsAccount: some raw statement
line, once IBAN-normalized, contains the normalized target as a substring. -/
def txMentionsSavingsAccount (tx : Transaction) (targetIban : String) : Bool :=
  tx.raw_lines.any (fun line => strContainsSub (normalizeIban line) (normalizeIban targetIban))

/-- Embedding of Dashboard.tsx txMentionsAnySavingsAccount. -/
def txMentionsAnySavingsAccount (tx : Transaction) (accounts : List String) : Bool :=
  if accounts.isEmpty then false
  else accounts.any (fun account => txMentionsSavingsAccount tx account)

/-- Per-account summary record built by Dashboard.tsx savingsAccountSummaries. -/
structure SavingsSummary where
  count : Nat
  inTotal : ℚ
  outTotal : ℚ
  net : ℚ
deriving DecidableEq, Repr

/-- The loop body of Dashboard.tsx savingsAccountSummaries for one account:
rows are the transactions with a non-null amount mentioning the account,
inTotal sums absolute amounts of debit rows, outTotal of credit rows, and
net is inTotal minus outTotal. -/
def savingsSummaryFor (txs : List Transaction) (account : String) : SavingsSummary :=
  let rows := txs.filter (fun t => t.amount.isSome && txMentionsSavingsAccount t account)
  let inTotal := ((rows.filter (fun t => t.direction == TxDirection.debit)).map
    (fun t => |t.amount.getD 0|)).sum
  let outTotal := ((rows.filter (fun t => t.direction == TxDirection.credit)).map
    (fun t => |t.amount.getD 0|)).sum
  { count := rows.length, inTotal := inTotal, outTotal := outTotal,
    net := inTotal - outTotal }

/-- Embedding of Dashboard.tsx savingsAccountSummaries: one summary per
configured account, keyed by the account. -/
def savingsAccountSummaries (savingsAccounts : List String)
    (txs : List Transaction) : List (String × SavingsSummary) :=
  savingsAccounts.foldl
    (fun byAccount account => recordInsert byAccount account (savingsSummaryFor txs account)) []

/-- Embedding of App.tsx handleAddCategory on the category list: trim, ignore
an empty name, rewrite the exact name Dining, append and deduplicate. -/
def addCategory (categories : List String) (newCategory : String) : List String :=
  if strTrim newCategory == "" then categories
  else
    dedupFirst (categories ++
      [if strTrim newCategory == "Dining" then "Restaurants" else strTrim newCategory])

/-- Embedding of App.tsx applyRenameCategory on the category list (oldName is
the category under edit, editingValue the typed replacement): an empty or
unchanged name is a no-op, otherwise every case-insensitive match of oldName
is rewritten and the list deduplicated. -/
def applyRenameCategories (categories : List String) (oldName editingValue : String) :
    List String :=
  let trimmed := if strTrim editingValue == "Dining" then "Restaurants" else strTrim editingValue
  if trimmed == "" || trimmed == oldName then categories
  else dedupFirst (categories.map (fun c => if categoryNameMatchesStr c oldName then trimmed else c))

/-- Embedding of App.tsx handleDeleteCategory on the category list: refuse the
fallback name, drop case-insensitive matches, re-add Other when missing. -/
def deleteCategoryCategories (categories : List String) (name : String) : List String :=
  if name == "Other" then categories
  else
    let next := categories.filter (fun c => !(categoryNameMatchesStr c name))
    if next.contains "Other" then next else next ++ ["Other"]

/-- Embedding of App.tsx handleDeleteCategory on the override map: rewrite
every value matching the deleted name to Other, then drop alias entries whose
old-name segment matches the deleted name. -/
def deleteCategoryOverrides (overrides : SRecord) (name : String) : SRecord :=
  ((overrides.map (fun p => if categoryNameMatchesStr p.2 name then (p.1, "Other") else p)).filter
    (fun p => !((splitOnSep p.1).headD "" == CATEGORY_ALIAS_MERCHANT
      && categoryNameMatches ((splitOnSep p.1).drop 1).head? name)))

/-- Embedding of App.tsx handleDeleteCategory on the transaction list: every
transaction whose category matches the deleted name is recategorized Other. -/
def deleteCategoryTxs (txs : List Transaction) (name : String) : List Transaction :=
  txs.map (fun t =>
    if categoryNameMatches t.category name then { t with category := some "Other" } else t)

/-- Embedding of storage.ts loadOverrides: with preferences consent, return
the stored parsed object unchanged; otherwise, or when the stored value is
absent or fails to parse to an object, return the empty map.  No value
rewriting of any kind happens on load. -/
def loadOverrides (canUsePrefs : Bool) (stored : Option SRecord) : SRecord :=
  if canUsePrefs then stored.getD [] else []

/-- Usage mode of the dashboard cache. -/
inductive Mode where
  | anonymous
  | account
deriving DecidableEq, Repr

/-- A sessionStorage entry as seen after JSON.parse: an array of transactions,
a non-array object (decoded as statement details), some other value, or a
string on which JSON.parse throws.  An array stored in the details slot is not
modeled as a details object. -/
inductive StoredJson where
  | txArr (txs : List Transaction)
  | obj (d : StatementDetails)
  | other
  | bad
deriving DecidableEq, Repr

/-- Cache key name fragments from App.tsx. -/
def DASHBOARD_CACHE_BASE : String := "expenses-helper.dashboard-cache.v2"

def STATEMENT_DETAILS_CACHE_BASE : String := "expenses-helper.statement-details-cache.v2"

def LEGACY_DASHBOARD_CACHE_KEY : String := "expenses-helper.dashboard-cache.v1"

def LEGACY_STATEMENT_DETAILS_CACHE_KEY : String := "expenses-helper.statement-details-cache.v1"

/-- Embedding of App.tsx getDashboardCacheKey. -/
def getDashboardCacheKey (mode : Mode) (userEmail : Option String) : String :=
  match mode with
  | Mode.anonymous => DASHBOARD_CACHE_BASE ++ ".anonymous"
  | Mode.account => DASHBOARD_CACHE_BASE ++ ".account." ++ strLower (userEmail.getD "")

/-- Embedding of App.tsx getStatementDetailsCacheKey. -/
def getStatementDetailsCacheKey (mode : Mode) (userEmail : Option String) : String :=
  match mode with
  | Mode.anonymous => STATEMENT_DETAILS_CACHE_BASE ++ ".anonymous"
  | Mode.account => STATEMENT_DETAILS_CACHE_BASE ++ ".account." ++ strLower (userEmail.getD "")

/-- The statementDetails guard of loadDashboardCacheForContext: a parsed value
is accepted as details only when it is a truthy object. -/
def decodeDetails (v : Option StoredJson) : Option StatementDetails :=
  match v with
  | some (StoredJson.obj d) => some d
  | _ => none

/-- The fallback section of App.tsx loadDashboardCacheForContext: the legacy
unversioned keys are consulted for anonymous mode only; account mode reaches
the final empty return directly. -/
def loadLegacyDashboardCache (store : String → Option StoredJson) (mode : Mode) :
    List Transaction × Option StatementDetails :=
  match mode with
  | Mode.account => ([], none)
  | Mode.anonymous =>
    match store LEGACY_DASHBOARD_CACHE_KEY, store LEGACY_STATEMENT_DETAILS_CACHE_KEY with
    | some StoredJson.bad, _ => ([], none)
    | _, some StoredJson.bad => ([], none)
    | some (StoredJson.txArr l), d => (l, decodeDetails d)
    | _, _ => ([], none)

/-- Embedding of App.tsx loadDashboardCacheForContext.  The store maps a key to
the parse outcome of its sessionStorage entry (none when getItem returns null).
A parse exception on either entry, a missing entry, or a non-array transaction
entry falls through past the versioned read into the legacy fallback
section. -/
def loadDashboardCacheForContext (canUse : Bool) (store : String → Option StoredJson)
    (mode : Mode) (userEmail : Option String) : List Transaction × Option StatementDetails :=
  if !canUse then ([], none)
  else
    match store (getDashboardCacheKey mode userEmail),
        store (getStatementDetailsCacheKey mode userEmail) with
    | some StoredJson.bad, _ => loadLegacyDashboardCache store mode
    | _, some StoredJson.bad => loadLegacyDashboardCache store mode
    | some (StoredJson.txArr l), d => (l, decodeDetails d)
    | _, _ => loadLegacyDashboardCache store mode

/-- Result of the external statement parser call (api.ts parseStatement). -/
structure ParsedStatement where
  transactions : List Transaction
  statementDetails : Option StatementDetails
deriving DecidableEq, Repr

/-- The application state touched by runUpload. -/
structure AppState where
  txs : List Transaction
  statementDetails : Option StatementDetails
  overrides : SRecord
  categories : List String
  savingsAccounts : List String
  error : Option String
  runInfo : Option String
deriving DecidableEq, Repr

/-- Embedding of App.tsx runUpload.  The two collaborator calls are passed in
as their results: parseResult for parseStatement and categorizeResult for the
categorize call on the parsed transactions.  A rejection of either call lands
in the catch block, which only records the error message; the success path
merges inferred aliases (computed first) with explicit aliases (spread second),
rewrites the exact legacy name Dining, applies the alias map and replaces the
transaction set and statement details. -/
def runUpload (parseResult : Except String ParsedStatement)
    (categorizeResult : Except String (List Transaction)) (s : AppState) : AppState :=
  let s0 := { s with error := none, runInfo := none }
  match parseResult with
  | Except.error e => { s0 with error := some e }
  | Except.ok parsed =>
    match categorizeResult with
    | Except.error e => { s0 with error := some e }
    | Except.ok categorized =>
      let aliases := recordMerge
        (inferCategoryAliasesFromExistingData s.txs s.categories)
        (extractCategoryAliases s.overrides)
      let normalized := categorized.map (fun t =>
        { t with category := if t.category == some "Dining" then some "Restaurants" else t.category })
      { s0 with
        txs := applyCategoryAliases normalized s.categories aliases
        statementDetails := parsed.statementDetails
        runInfo := some "k_done_statement_processed" }

theorem recordLookup_recordInsert {α : Type} (m : List (String × α)) (k : String) (v : α)
    (k' : String) :
    recordLookup (recordInsert m k v) k' = if k' = k then some v else recordLookup m k' := by
  induction m with
  | nil =>
    simp only [recordInsert, recordLookup]
    by_cases h : k = k'
    · subst h; simp
    · rw [if_neg (by simp [h]), if_neg (fun hc => h hc.symm)]
  | cons p rest ih =>
    simp only [recordInsert]
    by_cases h : p.1 = k
    · rw [if_pos (by simp [h])]
      simp only [recordLookup]
      by_cases h' : k = k'
      · subst h'; simp [h]
      · rw [if_neg (by simp [h']), if_neg (fun hc => h' hc.symm),
          if_neg (by simp [h ▸ h'])]
    · rw [if_neg (by simp [h])]
      simp only [recordLookup, ih]
      by_cases h' : p.1 = k' <;> by_cases hk : k' = k <;> simp_all

theorem recordLookup_foldl_cond {α : Type} (P : String → Bool) (v : String → α) :
    ∀ (l : List String) (init : List (String × α)) (k : String),
    recordLookup (l.foldl (fun acc x => if P x then recordInsert acc x (v x) else acc) init) k
      = if k ∈ l ∧ P k = true then some (v k) else recordLookup init k := by
  intro l
  induction l with
  | nil => intro init k; simp
  | cons x rest ih =>
    intro init k
    simp only [List.foldl_cons, ih]
    by_cases hPk : P k = true <;> by_cases hmem : k ∈ rest <;> by_cases hx : k = x <;>
      by_cases hPx : P x = true <;>
      simp_all [recordLookup_recordInsert]

theorem recordLookup_foldl_insert {α : Type} (v : String → α) :
    ∀ (l : List String) (init : List (String × α)) (k : String),
    recordLookup (l.foldl (fun acc x => recordInsert acc x (v x)) init) k
      = if k ∈ l then some (v k) else recordLookup init k := by
  intro l
  induction l with
  | nil => intro init k; simp
  | cons x rest ih =>
    intro init k
    simp only [List.foldl_cons, ih]
    by_cases hmem : k ∈ rest <;> by_cases hx : k = x <;>
      simp_all [recordLookup_recordInsert]

theorem mem_dedupFirstAux (a : String) :
    ∀ (l : List String) (seen : List String),
    a ∈ dedupFirstAux seen l ↔ a ∈ l ∧ a ∉ seen := by
  intro l
  induction l with
  | nil => intro seen; simp [dedupFirstAux]
  | cons x rest ih =>
    intro seen
    simp only [dedupFirstAux]
    by_cases hx : seen.contains x = true
    · have hxm : x ∈ seen := by simpa using hx
      rw [if_pos hx, ih]
      simp only [List.mem_cons]
      constructor
      · rintro ⟨hm, hs⟩; exact ⟨Or.inr hm, hs⟩
      · rintro ⟨hm | hm, hs⟩
        · exact absurd (hm ▸ hxm) hs
        · exact ⟨hm, hs⟩
    · have hxm : x ∉ seen := by simpa using hx
      rw [if_neg hx]
      simp only [List.mem_cons, ih, List.mem_cons]
      constructor
      · rintro (h | ⟨hm, hs⟩)
        · subst h; exact ⟨Or.inl rfl, hxm⟩
        · exact ⟨Or.inr hm, fun hc => hs (Or.inr hc)⟩
      · rintro ⟨hm | hm, hs⟩
        · exact Or.inl hm
        · by_cases hax : a = x
          · exact Or.inl hax
          · exact Or.inr ⟨hm, fun hc => (not_or.mpr ⟨hax, hs⟩) hc⟩

theorem mem_dedupFirst (a : String) (l : List String) : a ∈ dedupFirst l ↔ a ∈ l := by
  simp [dedupFirst, mem_dedupFirstAux]

theorem aliasWalk_of_no_match (aliases : SRecord) (c : String)
    (h : ∀ p ∈ aliases, categoryNameMatchesStr c p.1 = false) : aliasWalk aliases c = c := by
  induction aliases with
  | nil => rfl
  | cons p rest ih =>
    simp only [aliasWalk]
    rw [h p (List.mem_cons_self p rest)]
    simp only [Bool.false_eq_true, if_false]
    exact ih (fun q hq => h q (List.mem_cons.mpr (Or.inr hq)))

theorem aliasWalk_result (aliases : SRecord) (c : String) :
    aliasWalk aliases c = c ∨ ∃ p ∈ aliases, aliasWalk aliases c = p.2 := by
  induction aliases with
  | nil => exact Or.inl rfl
  | cons p rest ih =>
    simp only [aliasWalk]
    by_cases h : categoryNameMatchesStr c p.1 = true
    · rw [if_pos h]
      exact Or.inr ⟨p, List.mem_cons_self p rest, rfl⟩
    · rw [if_neg h]
      rcases ih with h' | ⟨q, hq, h'⟩
      · exact Or.inl h'
      · exact Or.inr ⟨q, List.mem_cons.mpr (Or.inr hq), h'⟩

theorem update_category_self (t : Transaction) (c : Option String) (h : t.category = c) :
    { t with category := c } = t := by
  cases t; cases h; rfl

theorem applyCategoryAliases_eq_map (txs : List Transaction) (categories : List String)
    (aliases : SRecord) :
    applyCategoryAliases txs categories aliases = txs.map (fun t =>
      { t with category := some (transformCategory categories aliases (t.category.getD "Other")) }) := by
  unfold applyCategoryAliases
  apply List.map_congr_left
  intro t _
  by_cases h : t.category = some (transformCategory categories aliases (t.category.getD "Other"))
  · rw [if_pos (by simpa using h)]
    exact (update_category_self t _ h).symm
  · rw [if_neg (by simp [h])]

/-- Claim C1 matching rule taken literally from the spec sentence: the alias
old-name equals the transaction category case-insensitively after trimming. -/
def claimAliasMatches (category oldName : String) : Bool :=
  strLower (strTrim category) == strLower (strTrim oldName)

/-- The per-category alias application described by claim C1, word for word:
take the value of the first alias entry whose old-name matches, pass an
unmatched category through, rewrite an exact Dining result to Restaurants,
then substitute Other for a result outside the category set when Other is in
the set. -/
def claimTransform (categories : List String) (aliases : SRecord) (c : String) : String :=
  let mapped := match aliases.find? (fun p => claimAliasMatches c p.1) with
    | some p => p.2
    | none => c
  let mapped := if mapped == "Dining" then "Restaurants" else mapped
  if !(categories.contains mapped) && categories.contains "Other" then "Other" else mapped

/-- The amended matching rule: as claim C1, and additionally both the old-name
and the category must be non-empty after trimming. -/
def claimAliasMatchesAmended (category oldName : String) : Bool :=
  !(strTrim category == "") && !(strTrim oldName == "")
    && (strLower (strTrim category) == strLower (strTrim oldName))

/-- The per-category alias application of claim C1 with the amended matching
rule. -/
def claimTransformAmended (categories : List String) (aliases : SRecord) (c : String) : String :=
  let mapped := match aliases.find? (fun p => claimAliasMatchesAmended c p.1) with
    | some p => p.2
    | none => c
  let mapped := if mapped == "Dining" then "Restaurants" else mapped
  if !(categories.contains mapped) && categories.contains "Other" then "Other" else mapped

theorem categoryNameMatchesStr_eq_amended (v t : String) :
    categoryNameMatchesStr v t = claimAliasMatchesAmended v t := by
  unfold categoryNameMatchesStr claimAliasMatchesAmended
  by_cases h1 : strTrim v = ""
  · simp [h1]
  · by_cases h2 : strTrim t = ""
    · simp [h1, h2]
    · by_cases h3 : strTrim v = strTrim t
      · simp [h1, h2, h3]
      · simp [h1, h2, h3]

theorem aliasWalk_eq_find (aliases : SRecord) (c : String) :
    aliasWalk aliases c = (match aliases.find? (fun p => claimAliasMatchesAmended c p.1) with
      | some p => p.2
      | none => c) := by
  induction aliases with
  | nil => rfl
  | cons p rest ih =>
    simp only [aliasWalk, List.find?, categoryNameMatchesStr_eq_amended]
    by_cases h : claimAliasMatchesAmended c p.1 = true
    · simp [h]
    · simp only [Bool.not_eq_true] at h
      simp [h, ih]

theorem transformCategory_eq_claimAmended (categories : List String) (aliases : SRecord)
    (raw : String) :
    transformCategory categories aliases raw = claimTransformAmended categories aliases raw := by
  unfold transformCategory claimTransformAmended
  rw [aliasWalk_eq_find]

/-- Claim C1, as stated, fails on a category and an alias old-name that are
both empty after trimming: the spec-literal matching rule replaces the
category, the source categoryNameMatches refuses empty strings and leaves it
unchanged. -/
theorem C1_counterexample :
    ¬ (applyCategoryAliases [{ category := some " " }] ["X"] [(" ", "X")]
      = ([{ category := some " " }] : List Transaction).map (fun t =>
          { t with category := some (claimTransform ["X"] [(" ", "X")] (t.category.getD "Other")) })) := by
  decide

/-- Claim C1 (amended): for transactions that carry a category, alias
application walks the alias map in insertion order and replaces the category
with the value of the first entry whose old-name equals the category
case-insensitively after trimming, both sides being non-empty after trimming;
an unmatched category passes through; an exact Dining result becomes
Restaurants; a result outside the category set is replaced by Other when
Other is in the set. -/
theorem C1_alias_application (txs : List Transaction) (categories : List String)
    (aliases : SRecord) (_h : ∀ t ∈ txs, t.category.isSome = true) :
    applyCategoryAliases txs categories aliases = txs.map (fun t =>
      { t with category := some (claimTransformAmended categories aliases (t.category.getD "Other")) }) := by
  rw [applyCategoryAliases_eq_map]
  simp only [transformCategory_eq_claimAmended]

/-- Witness for C1: a concrete migration where the alias entry fires. -/
theorem C1_witness :
    (∀ t ∈ ([{ category := some "Groc" }] : List Transaction), t.category.isSome = true)
    ∧ applyCategoryAliases [{ category := some "Groc" }] ["Groceries", "Other"] [("Groc", "Groceries")]
      = ([{ category := some "Groc" }] : List Transaction).map (fun t =>
          { t with category := some (claimTransformAmended ["Groceries", "Other"] [("Groc", "Groceries")] (t.category.getD "Other")) }) :=
  ⟨by decide, C1_alias_application _ _ _ (by decide)⟩

/-- Claim C10: alias application preserves the number and order of the
transactions and every field other than the category. -/
theorem C10_frame_preservation (txs : List Transaction) (categories : List String)
    (aliases : SRecord) :
    (applyCategoryAliases txs categories aliases).length = txs.length
    ∧ ∀ i : Nat,
      ((applyCategoryAliases txs categories aliases)[i]?.map Transaction.date
        = txs[i]?.map Transaction.date)
      ∧ ((applyCategoryAliases txs categories aliases)[i]?.map Transaction.title
        = txs[i]?.map Transaction.title)
      ∧ ((applyCategoryAliases txs categories aliases)[i]?.map Transaction.merchant
        = txs[i]?.map Transaction.merchant)
      ∧ ((applyCategoryAliases txs categories aliases)[i]?.map Transaction.method
        = txs[i]?.map Transaction.method)
      ∧ ((applyCategoryAliases txs categories aliases)[i]?.map Transaction.amount
        = txs[i]?.map Transaction.amount)
      ∧ ((applyCategoryAliases txs categories aliases)[i]?.map Transaction.currency
        = txs[i]?.map Transaction.currency)
      ∧ ((applyCategoryAliases txs categories aliases)[i]?.map Transaction.direction
        = txs[i]?.map Transaction.direction)
      ∧ ((applyCategoryAliases txs categories aliases)[i]?.map Transaction.raw_lines
        = txs[i]?.map Transaction.raw_lines) := by
  rw [applyCategoryAliases_eq_map]
  refine ⟨List.length_map _ _, ?_⟩
  intro i
  cases h : txs[i]? with
  | none => simp [List.getElem?_map, h]
  | some t => simp [List.getElem?_map, h]

theorem aliasWalk_cases (aliases : SRecord) (c : String) :
    (aliasWalk aliases c = c ∧ ∀ p ∈ aliases, categoryNameMatchesStr c p.1 = false)
    ∨ ∃ p ∈ aliases, aliasWalk aliases c = p.2 := by
  induction aliases with
  | nil => exact Or.inl ⟨rfl, by simp⟩
  | cons p rest ih =>
    simp only [aliasWalk]
    by_cases h : categoryNameMatchesStr c p.1 = true
    · rw [if_pos h]
      exact Or.inr ⟨p, List.mem_cons_self p rest, rfl⟩
    · rw [if_neg h]
      rcases ih with ⟨heq, hnm⟩ | ⟨q, hq, heq⟩
      · refine Or.inl ⟨heq, ?_⟩
        intro q hq
        rcases List.mem_cons.mp hq with h' | h'
        · subst h'; simpa using h
        · exact hnm q h'
      · exact Or.inr ⟨q, List.mem_cons.mpr (Or.inr hq), heq⟩

theorem transformCategory_idem (categories : List String) (aliases : SRecord) (raw : String)
    (hvals : ∀ p ∈ aliases, ∀ q ∈ aliases, categoryNameMatchesStr q.2 p.1 = false)
    (hrest : ∀ p ∈ aliases, categoryNameMatchesStr "Restaurants" p.1 = false)
    (hother : ∀ p ∈ aliases, categoryNameMatchesStr "Other" p.1 = false) :
    transformCategory categories aliases (transformCategory categories aliases raw)
      = transformCategory categories aliases raw := by
  have step : ∀ c : String,
      (∀ p ∈ aliases, categoryNameMatchesStr c p.1 = false) → c ≠ "Dining" →
      (!(categories.contains c) && categories.contains "Other") = false →
      transformCategory categories aliases c = c := by
    intro c hnm hnd hclamp
    unfold transformCategory
    rw [aliasWalk_of_no_match aliases c hnm]
    have hdif : (if (c == "Dining") = true then "Restaurants" else c) = c :=
      if_neg (by simp [hnd])
    show (if (!(categories.contains (if (c == "Dining") = true then "Restaurants" else c))
        && categories.contains "Other") = true then "Other"
      else (if (c == "Dining") = true then "Restaurants" else c)) = c
    rw [hdif, hclamp]
    simp
  have hWnm : ∀ p ∈ aliases, categoryNameMatchesStr (aliasWalk aliases raw) p.1 = false := by
    rcases aliasWalk_cases aliases raw with ⟨heq, hno⟩ | ⟨q, hq, heq⟩
    · intro p hp; rw [heq]; exact hno p hp
    · intro p hp; rw [heq]; exact hvals p hp q hq
  have hM2nm : ∀ p ∈ aliases,
      categoryNameMatchesStr (if aliasWalk aliases raw == "Dining" then "Restaurants"
        else aliasWalk aliases raw) p.1 = false := by
    by_cases hd : aliasWalk aliases raw = "Dining"
    · rw [if_pos (by simp [hd])]; exact hrest
    · rw [if_neg (by simp [hd])]; exact hWnm
  have hM2nd : (if aliasWalk aliases raw == "Dining" then "Restaurants"
      else aliasWalk aliases raw) ≠ "Dining" := by
    by_cases hd : aliasWalk aliases raw = "Dining"
    · rw [if_pos (by simp [hd])]; decide
    · rw [if_neg (by simp [hd])]; exact hd
  have hrEq : transformCategory categories aliases raw
      = if (!(categories.contains (if aliasWalk aliases raw == "Dining" then "Restaurants"
            else aliasWalk aliases raw)) && categories.contains "Other") = true then "Other"
        else (if aliasWalk aliases raw == "Dining" then "Restaurants"
            else aliasWalk aliases raw) := rfl
  rw [hrEq]
  by_cases hclamp : (!(categories.contains (if aliasWalk aliases raw == "Dining" then "Restaurants"
      else aliasWalk aliases raw)) && categories.contains "Other") = true
  · rw [if_pos hclamp]
    have hoth : categories.contains "Other" = true := (Bool.and_eq_true_iff.mp hclamp).2
    refine step "Other" hother (by decide) ?_
    simp [hoth]
  · rw [if_neg hclamp]
    refine step _ hM2nm hM2nd ?_
    simpa using hclamp

/-- Claim C5, as stated, fails on a chained alias map: with aliases A to B and
B to C, the first application sends A to B and the second sends that B on
to C. -/
theorem C5_counterexample :
    applyCategoryAliases
      (applyCategoryAliases [{ category := some "A" }] ["B", "C", "Other"] [("A", "B"), ("B", "C")])
      ["B", "C", "Other"] [("A", "B"), ("B", "C")]
    ≠ applyCategoryAliases [{ category := some "A" }] ["B", "C", "Other"] [("A", "B"), ("B", "C")] := by
  decide

/-- Claim C5 (amended): applying the same alias map twice is a no-op provided
no alias value case-insensitively matches any alias old-name, and no alias
old-name matches Restaurants or Other. -/
theorem C5_alias_application_idem (aliases : SRecord)
    (hvals : ∀ p ∈ aliases, ∀ q ∈ aliases, categoryNameMatchesStr q.2 p.1 = false)
    (hrest : ∀ p ∈ aliases, categoryNameMatchesStr "Restaurants" p.1 = false)
    (hother : ∀ p ∈ aliases, categoryNameMatchesStr "Other" p.1 = false) :
    ∀ (txs : List Transaction) (categories : List String),
    applyCategoryAliases (applyCategoryAliases txs categories aliases) categories aliases
      = applyCategoryAliases txs categories aliases := by
  intro txs categories
  rw [applyCategoryAliases_eq_map, applyCategoryAliases_eq_map, List.map_map]
  apply List.map_congr_left
  intro t _
  have h2 := transformCategory_idem categories aliases (t.category.getD "Other") hvals hrest hother
  simp [h2]

/-- Witness for C5: a single safe alias applied twice on a concrete list. -/
theorem C5_witness :
    applyCategoryAliases
      (applyCategoryAliases [{ category := some "Aaa" }] ["Bbb", "Other"] [("Aaa", "Bbb")])
      ["Bbb", "Other"] [("Aaa", "Bbb")]
    = applyCategoryAliases [{ category := some "Aaa" }] ["Bbb", "Other"] [("Aaa", "Bbb")] :=
  C5_alias_application_idem [("Aaa", "Bbb")] (by decide) (by decide) (by decide) _ _

/-- Claim C2 fails on the code: handleAddCategory deduplicates only by exact
equality, so the case-variant name other can join the set next to Other; the
rename operation then rewrites every case-insensitive match of the name under
edit, which captures Other itself, and unlike handleDeleteCategory it never
re-adds the fallback.  Starting from the normalized defaults, adding other and
renaming other to Foo leaves a category set without Other, although the rename
target other is a legitimate non-fallback entry of the set. -/
theorem C2_code_eval :
    ("other" ∈ addCategory (normalizeCategories DEFAULT_CATEGORIES) "other"
      ∧ "other" ≠ "Other")
    ∧ "Other" ∉ applyRenameCategories
        (addCategory (normalizeCategories DEFAULT_CATEGORIES) "other") "other" "Foo" := by
  decide

/-- Claim C3, as stated, fails on the code: handleDeleteCategory removes only
alias entries whose old-name segment matches the deleted category, and the
alias entry under key with old-name Old references Shopping as its value, not
as its old-name, so the entry is kept (its value is rewritten to Other). -/
theorem C3_counterexample :
    ¬ (recordLookup (deleteCategoryOverrides
        [("A||B", "Shopping"), ("__CATEGORY_ALIAS__||Old", "Shopping")] "Shopping")
        "__CATEGORY_ALIAS__||Old" = none) := by
  decide

/-- Claim C3 (amended): deleting Shopping with this override map rewrites the
value under key A double-bar B to Other and also rewrites the alias entry's
value to Other while keeping the entry (its old-name Old is not the deleted
category), and every transaction previously categorized Shopping becomes
Other. -/
theorem C3_delete_shopping (txs : List Transaction) (i : Nat)
    (h : (txs[i]?.bind Transaction.category) = some "Shopping") :
    deleteCategoryOverrides [("A||B", "Shopping"), ("__CATEGORY_ALIAS__||Old", "Shopping")] "Shopping"
      = [("A||B", "Other"), ("__CATEGORY_ALIAS__||Old", "Other")]
    ∧ ((deleteCategoryTxs txs "Shopping")[i]?.bind Transaction.category) = some "Other" := by
  refine ⟨by decide, ?_⟩
  unfold deleteCategoryTxs
  rw [List.getElem?_map]
  cases htx : txs[i]? with
  | none => rw [htx] at h; simp at h
  | some t =>
    have ht : t.category = some "Shopping" := by
      rw [htx] at h; simpa using h
    have hmatch : categoryNameMatches t.category "Shopping" = true := by
      rw [ht]; decide
    simp [hmatch]

/-- Witness for C3: a one-transaction list categorized Shopping. -/
theorem C3_witness :
    ((([{ category := some "Shopping" }] : List Transaction)[0]?.bind Transaction.category)
      = some "Shopping")
    ∧ (deleteCategoryOverrides [("A||B", "Shopping"), ("__CATEGORY_ALIAS__||Old", "Shopping")] "Shopping"
        = [("A||B", "Other"), ("__CATEGORY_ALIAS__||Old", "Other")]
      ∧ ((deleteCategoryTxs [{ category := some "Shopping" }] "Shopping")[0]?.bind Transaction.category)
        = some "Other") :=
  ⟨by decide, C3_delete_shopping [{ category := some "Shopping" }] 0 (by decide)⟩

/-- Claim C4 candidate relation, from the spec sentence: current categories
related to the unknown name case-insensitively by one string containing the
other. -/
def claimCandidates (categories : List String) (oldName : String) : List String :=
  categories.filter (fun c =>
    strContainsSub (strLower c) (strLower oldName) || strContainsSub (strLower oldName) (strLower c))

theorem head?_eq_headD {α : Type} (l : List α) (d : α) (h : l ≠ []) :
    l.head? = some (l.headD d) := by
  cases l with
  | nil => exact absurd rfl h
  | cons a rest => rfl

/-- Claim C4: the inferred alias map maps old to candidate exactly for the
trimmed non-empty category names appearing on some transaction, absent from
the category set, and having exactly one containment-related candidate; zero
or several candidates yield no entry. -/
theorem C4_inferred_aliases (txs : List Transaction) (categories : List String)
    (oldName : String) :
    recordLookup (inferCategoryAliasesFromExistingData txs categories) oldName
      = if (∃ t ∈ txs, strTrim (t.category.getD "") = oldName) ∧ ¬oldName = ""
            ∧ oldName ∉ categories ∧ (claimCandidates categories oldName).length = 1
        then (claimCandidates categories oldName).head?
        else none := by
  simp only [inferCategoryAliasesFromExistingData]
  rw [recordLookup_foldl_cond
    (fun x => (categories.filter (fun c =>
      strContainsSub (strLower c) (strLower x)
      || strContainsSub (strLower x) (strLower c))).length == 1)
    (fun x => (categories.filter (fun c =>
      strContainsSub (strLower c) (strLower x)
      || strContainsSub (strLower x) (strLower c))).headD "")]
  have hmem : oldName ∈ dedupFirst
      (((txs.map (fun t => strTrim (t.category.getD ""))).filter
        (fun c => !(c == ""))).filter (fun c => !(categories.contains c)))
      ↔ ((∃ t ∈ txs, strTrim (t.category.getD "") = oldName) ∧ ¬oldName = ""
          ∧ oldName ∉ categories) := by
    rw [mem_dedupFirst]
    simp [List.mem_filter, List.mem_map]
    tauto
  split
  next hyes =>
    obtain ⟨hm, hlen⟩ := hyes
    obtain ⟨h1, h2, h3⟩ := hmem.mp hm
    have h4 : (claimCandidates categories oldName).length = 1 := by
      simpa [claimCandidates] using hlen
    have hne : claimCandidates categories oldName ≠ [] := by
      intro hnil
      rw [hnil] at h4
      simp at h4
    rw [if_pos ⟨h1, h2, h3, h4⟩, head?_eq_headD _ "" hne]
    rfl
  next hno =>
    have hnc : ¬((∃ t ∈ txs, strTrim (t.category.getD "") = oldName) ∧ ¬oldName = ""
        ∧ oldName ∉ categories ∧ (claimCandidates categories oldName).length = 1) := by
      rintro ⟨h1, h2, h3, h4⟩
      exact hno ⟨hmem.mpr ⟨h1, h2, h3⟩, by simpa [claimCandidates] using h4⟩
    rw [if_neg hnc]
    rfl

theorem transformCategory_ne_dining (categories : List String) (aliases : SRecord)
    (raw : String) : transformCategory categories aliases raw ≠ "Dining" := by
  unfold transformCategory
  show (if (!(categories.contains (if (aliasWalk aliases raw == "Dining") = true then "Restaurants"
      else aliasWalk aliases raw)) && categories.contains "Other") = true then "Other"
    else (if (aliasWalk aliases raw == "Dining") = true then "Restaurants"
      else aliasWalk aliases raw)) ≠ "Dining"
  split_ifs with h1 h2 h3 <;> first | decide | simp_all

/-- Claim C6, as stated, fails on the code: loading persisted data performs no
Dining rewriting — storage.ts loadOverrides returns the stored override map
verbatim, and the dashboard cache loader returns cached transactions verbatim,
so the state reached by loading such persisted data holds Dining as an
override value and as a transaction category. -/
theorem C6_counterexample :
    ((loadOverrides true (some [("A||B", "Dining")])).any (fun p => p.2 == "Dining") = true)
    ∧ (loadDashboardCacheForContext true
        (fun k => if k == "expenses-helper.dashboard-cache.v2.anonymous"
          then some (StoredJson.txArr [{ category := some "Dining" }]) else none)
        Mode.anonymous none).1 = [{ category := some "Dining" }] := by
  decide

/-- Claim C6 (amended): alias application never outputs a transaction
categorized exactly Dining, the normalized default category set is free of
Dining, and the add, rename and delete category operations preserve the
absence of Dining from the category set; loading persisted overrides or cached
transactions, however, performs no rewriting. -/
theorem C6_dining_rewrites :
    (∀ (txs : List Transaction) (categories : List String) (aliases : SRecord),
      ∀ t ∈ applyCategoryAliases txs categories aliases, ¬t.category = some "Dining")
    ∧ ("Dining" ∉ normalizeCategories DEFAULT_CATEGORIES)
    ∧ (∀ (categories : List String) (c : String),
        "Dining" ∉ categories → "Dining" ∉ addCategory categories c)
    ∧ (∀ (categories : List String) (o v : String),
        "Dining" ∉ categories → "Dining" ∉ applyRenameCategories categories o v)
    ∧ (∀ (categories : List String) (n : String),
        "Dining" ∉ categories → "Dining" ∉ deleteCategoryCategories categories n) := by
  have htd : ∀ s : String, (if (strTrim s == "Dining") = true then "Restaurants"
      else strTrim s) ≠ "Dining" := by
    intro s
    by_cases hd : strTrim s = "Dining"
    · rw [if_pos (by simp [hd])]; decide
    · rw [if_neg (by simp [hd])]; exact hd
  refine ⟨?_, by decide, ?_, ?_, ?_⟩
  · intro txs categories aliases t ht
    rw [applyCategoryAliases_eq_map] at ht
    obtain ⟨x, _hx, hxe⟩ := List.mem_map.mp ht
    intro hcat
    rw [← hxe] at hcat
    simp only [Option.some.injEq] at hcat
    exact transformCategory_ne_dining categories aliases _ hcat
  · intro categories c h
    simp only [addCategory]
    split
    · exact h
    · rw [mem_dedupFirst]
      intro hm
      rcases List.mem_append.mp hm with hm | hm
      · exact h hm
      · exact htd c (List.mem_singleton.mp hm).symm
  · intro categories o v h
    simp only [applyRenameCategories]
    have hbody : ∀ X : String, X ≠ "Dining" →
        "Dining" ∉ (if (X == "" || X == o) = true then categories
          else dedupFirst (categories.map (fun c =>
            if categoryNameMatchesStr c o = true then X else c))) := by
      intro X hX
      split
      · exact h
      · rw [mem_dedupFirst]
        intro hm
        obtain ⟨c, hc, hce⟩ := List.mem_map.mp hm
        by_cases hmc : categoryNameMatchesStr c o = true
        · rw [if_pos hmc] at hce
          exact hX hce
        · rw [if_neg hmc] at hce
          exact h (hce ▸ hc)
    split
    next => exact hbody "Restaurants" (by decide)
    next hd => exact hbody (strTrim v) (by simpa using hd)
  · intro categories n h
    simp only [deleteCategoryCategories]
    split
    · exact h
    · split
      · intro hm
        exact h (List.mem_filter.mp hm).1
      · intro hm
        rcases List.mem_append.mp hm with hm | hm
        · exact h (List.mem_filter.mp hm).1
        · simp at hm

/-- Witness for C6 (amended): concrete instances of every conjunct. -/
theorem C6_witness :
    (∀ t ∈ applyCategoryAliases [{ category := some "Dining" }] ["Other"] [],
      ¬t.category = some "Dining")
    ∧ "Dining" ∉ addCategory ["Other"] "Dining"
    ∧ "Dining" ∉ applyRenameCategories ["Other", "X"] "X" "Dining"
    ∧ "Dining" ∉ deleteCategoryCategories ["Other", "X"] "X" :=
  ⟨C6_dining_rewrites.1 _ _ _,
   C6_dining_rewrites.2.2.1 ["Other"] "Dining" (by decide),
   C6_dining_rewrites.2.2.2.1 ["Other", "X"] "X" "Dining" (by decide),
   C6_dining_rewrites.2.2.2.2 ["Other", "X"] "X" (by decide)⟩

/-- A store whose anonymous versioned transaction entry is a valid array but
whose anonymous versioned details entry fails to parse, while legacy data also
exists: the details parse exception aborts the versioned read before the
return, so the legacy fallback is attempted. -/
def anonymousCorruptDetailsStore : String → Option StoredJson := fun k =>
  if k == "expenses-helper.dashboard-cache.v2.anonymous" then
    some (StoredJson.txArr [{ category := some "NEW" }])
  else if k == "expenses-helper.statement-details-cache.v2.anonymous" then
    some StoredJson.bad
  else if k == "expenses-helper.dashboard-cache.v1" then
    some (StoredJson.txArr [{ category := some "LEGACY" }])
  else none

/-- Claim C7, as stated, fails on the code: although the anonymous versioned
key yields a valid transaction array, a corrupt versioned details entry makes
the details JSON.parse throw before the versioned return, the catch falls
through, and the legacy fallback is attempted — here it even wins, returning
the legacy transactions over the valid versioned ones. -/
theorem C7_counterexample :
    anonymousCorruptDetailsStore (getDashboardCacheKey Mode.anonymous none)
      = some (StoredJson.txArr [{ category := some "NEW" }])
    ∧ (loadDashboardCacheForContext true anonymousCorruptDetailsStore Mode.anonymous none).1
      = [{ category := some "LEGACY" }] := by
  decide

/-- Claim C7 (amended): account-mode cache loads never touch the legacy keys
(the result depends only on the two account-scoped versioned entries), an
absent or corrupt versioned entry yields the empty result in account mode, a
valid anonymous versioned read (transaction array present and details entry
parseable) is served without the legacy fallback, and the anonymous legacy
fallback is attempted exactly when the versioned read fails — when the
versioned transaction entry yields no valid array, or when the versioned
details entry fails to parse even though the transaction array is valid. -/
theorem C7_account_cache_isolation :
    (∀ (canUse : Bool) (email : Option String) (store store' : String → Option StoredJson),
      store (getDashboardCacheKey Mode.account email)
          = store' (getDashboardCacheKey Mode.account email) →
      store (getStatementDetailsCacheKey Mode.account email)
          = store' (getStatementDetailsCacheKey Mode.account email) →
      loadDashboardCacheForContext canUse store Mode.account email
        = loadDashboardCacheForContext canUse store' Mode.account email)
    ∧ (∀ (canUse : Bool) (email : Option String) (store : String → Option StoredJson),
      ((∀ l, ¬store (getDashboardCacheKey Mode.account email) = some (StoredJson.txArr l))
        ∨ store (getStatementDetailsCacheKey Mode.account email) = some StoredJson.bad) →
      loadDashboardCacheForContext canUse store Mode.account email = ([], none))
    ∧ (∀ (canUse : Bool) (email : Option String) (store : String → Option StoredJson)
        (l : List Transaction),
      store (getDashboardCacheKey Mode.anonymous email) = some (StoredJson.txArr l) →
      ¬store (getStatementDetailsCacheKey Mode.anonymous email) = some StoredJson.bad →
      loadDashboardCacheForContext canUse store Mode.anonymous email
        = if canUse = true
          then (l, decodeDetails (store (getStatementDetailsCacheKey Mode.anonymous email)))
          else ([], none))
    ∧ (∀ (email : Option String) (store : String → Option StoredJson),
      ((∀ l, ¬store (getDashboardCacheKey Mode.anonymous email) = some (StoredJson.txArr l))
        ∨ store (getStatementDetailsCacheKey Mode.anonymous email) = some StoredJson.bad) →
      loadDashboardCacheForContext true store Mode.anonymous email
        = loadLegacyDashboardCache store Mode.anonymous) := by
  have hleg : ∀ (s : String → Option StoredJson),
      loadLegacyDashboardCache s Mode.account = ([], none) := fun _ => rfl
  refine ⟨?_, ?_, ?_, ?_⟩
  · intro canUse email store store' h1 h2
    unfold loadDashboardCacheForContext
    rw [h1, h2]
    simp only [hleg]
  · intro canUse email store hcond
    cases canUse with
    | false => rfl
    | true =>
      rcases hcond with hA | hB
      · rcases hs : store (getDashboardCacheKey Mode.account email) with _ | v
        · rcases hd : store (getStatementDetailsCacheKey Mode.account email) with _ | w
          · simp [loadDashboardCacheForContext, loadLegacyDashboardCache, hs, hd]
          · cases w <;> simp [loadDashboardCacheForContext, loadLegacyDashboardCache, hs, hd]
        · cases v with
          | txArr l => exact absurd hs (hA l)
          | obj d =>
            rcases hd : store (getStatementDetailsCacheKey Mode.account email) with _ | w
            · simp [loadDashboardCacheForContext, loadLegacyDashboardCache, hs, hd]
            · cases w <;> simp [loadDashboardCacheForContext, loadLegacyDashboardCache, hs, hd]
          | other =>
            rcases hd : store (getStatementDetailsCacheKey Mode.account email) with _ | w
            · simp [loadDashboardCacheForContext, loadLegacyDashboardCache, hs, hd]
            · cases w <;> simp [loadDashboardCacheForContext, loadLegacyDashboardCache, hs, hd]
          | bad => simp [loadDashboardCacheForContext, loadLegacyDashboardCache, hs]
      · rcases hs : store (getDashboardCacheKey Mode.account email) with _ | v
        · simp [loadDashboardCacheForContext, loadLegacyDashboardCache, hs, hB]
        · cases v <;> simp [loadDashboardCacheForContext, loadLegacyDashboardCache, hs, hB]
  · intro canUse email store l htx hdet
    cases canUse with
    | false => rfl
    | true =>
      rcases hd : store (getStatementDetailsCacheKey Mode.anonymous email) with _ | w
      · simp [loadDashboardCacheForContext, htx, hd, decodeDetails]
      · cases w with
        | bad => exact absurd hd hdet
        | txArr l' => simp [loadDashboardCacheForContext, htx, hd, decodeDetails]
        | obj d => simp [loadDashboardCacheForContext, htx, hd, decodeDetails]
        | other => simp [loadDashboardCacheForContext, htx, hd, decodeDetails]
  · intro email store hcond
    rcases hcond with hA | hB
    · rcases hs : store (getDashboardCacheKey Mode.anonymous email) with _ | v
      · rcases hd : store (getStatementDetailsCacheKey Mode.anonymous email) with _ | w
        · simp [loadDashboardCacheForContext, hs, hd]
        · cases w <;> simp [loadDashboardCacheForContext, hs, hd]
      · cases v with
        | txArr l => exact absurd hs (hA l)
        | obj d =>
          rcases hd : store (getStatementDetailsCacheKey Mode.anonymous email) with _ | w
          · simp [loadDashboardCacheForContext, hs, hd]
          · cases w <;> simp [loadDashboardCacheForContext, hs, hd]
        | other =>
          rcases hd : store (getStatementDetailsCacheKey Mode.anonymous email) with _ | w
          · simp [loadDashboardCacheForContext, hs, hd]
          · cases w <;> simp [loadDashboardCacheForContext, hs, hd]
        | bad => simp [loadDashboardCacheForContext, hs]
    · rcases hs : store (getDashboardCacheKey Mode.anonymous email) with _ | v
      · simp [loadDashboardCacheForContext, hs, hB]
      · cases v <;> simp [loadDashboardCacheForContext, hs, hB]

/-- Witness for C7: a store holding only the anonymous versioned entry, an
empty store, and the corrupt-details store, at concrete identities. -/
theorem C7_witness :
    (loadDashboardCacheForContext true (fun _ => none) Mode.account (some "U")
        = loadDashboardCacheForContext true
            (fun k => if k == LEGACY_DASHBOARD_CACHE_KEY
              then some (StoredJson.txArr [{ category := some "X" }]) else none)
            Mode.account (some "U"))
    ∧ (loadDashboardCacheForContext true (fun _ => none) Mode.account (some "U") = ([], none))
    ∧ (loadDashboardCacheForContext true
        (fun k => if k == "expenses-helper.dashboard-cache.v2.anonymous"
          then some (StoredJson.txArr [{ category := some "X" }]) else none)
        Mode.anonymous none
      = if true = true
        then ([{ category := some "X" }],
          decodeDetails ((fun k => if k == "expenses-helper.dashboard-cache.v2.anonymous"
            then some (StoredJson.txArr [{ category := some "X" }]) else none)
            (getStatementDetailsCacheKey Mode.anonymous none)))
        else ([], none))
    ∧ (loadDashboardCacheForContext true anonymousCorruptDetailsStore Mode.anonymous none
        = loadLegacyDashboardCache anonymousCorruptDetailsStore Mode.anonymous) :=
  ⟨C7_account_cache_isolation.1 true (some "U") _ _ (by decide) (by decide),
   C7_account_cache_isolation.2.1 true (some "U") _
     (Or.inl (fun l h => Option.noConfusion h)),
   C7_account_cache_isolation.2.2.1 true none _ [{ category := some "X" }] (by decide) (by decide),
   C7_account_cache_isolation.2.2.2 none anonymousCorruptDetailsStore (Or.inr (by decide))⟩

/-- Claim C8: a failed Statement Parser or Base Categorizer call surfaces the
error message and leaves the previously held transactions and statement
details unchanged. -/
theorem C8_failed_upload_preserves (parseResult : Except String ParsedStatement)
    (categorizeResult : Except String (List Transaction)) (s : AppState)
    (h : (∃ e, parseResult = Except.error e) ∨ (∃ e, categorizeResult = Except.error e)) :
    (runUpload parseResult categorizeResult s).txs = s.txs
    ∧ (runUpload parseResult categorizeResult s).statementDetails = s.statementDetails
    ∧ ∃ m, (runUpload parseResult categorizeResult s).error = some m := by
  rcases h with ⟨e, he⟩ | ⟨e, he⟩
  · subst he
    exact ⟨rfl, rfl, e, rfl⟩
  · cases parseResult with
    | error e' => exact ⟨rfl, rfl, e', rfl⟩
    | ok p =>
      subst he
      exact ⟨rfl, rfl, e, rfl⟩

/-- Witness for C8: a failing parse over a non-empty prior state. -/
theorem C8_witness :
    (runUpload (Except.error "parse failed") (Except.ok [])
        { txs := [{ category := some "X" }], statementDetails := none, overrides := [],
          categories := ["Other"], savingsAccounts := [], error := none,
          runInfo := some "old" }).txs = [{ category := some "X" }]
    ∧ (runUpload (Except.error "parse failed") (Except.ok [])
        { txs := [{ category := some "X" }], statementDetails := none, overrides := [],
          categories := ["Other"], savingsAccounts := [], error := none,
          runInfo := some "old" }).statementDetails = none
    ∧ ∃ m, (runUpload (Except.error "parse failed") (Except.ok [])
        { txs := [{ category := some "X" }], statementDetails := none, overrides := [],
          categories := ["Other"], savingsAccounts := [], error := none,
          runInfo := some "old" }).error = some m :=
  C8_failed_upload_preserves _ _ _ (Or.inl ⟨"parse failed", rfl⟩)

theorem absAmounts_eq (m d : Transaction → Bool) : ∀ (l : List Transaction),
    ((l.filter (fun t => t.amount.isSome && m t)).filter d).map (fun t => |t.amount.getD 0|)
      = ((l.filter (fun t => m t && d t)).filterMap Transaction.amount).map (fun q => |q|) := by
  intro l
  induction l with
  | nil => rfl
  | cons t rest ih =>
    cases hq : t.amount with
    | none =>
      by_cases hm : m t = true <;> by_cases hdt : d t = true <;>
        simp_all [List.filter_cons, List.filterMap_cons]
    | some q =>
      by_cases hm : m t = true <;> by_cases hdt : d t = true <;>
        simp_all [List.filter_cons, List.filterMap_cons]

/-- Claim C9: for every configured account, the recorded summary counts the
transactions mentioning that account, sums absolute amounts of its matching
debit transactions as savings-in, of its matching credit transactions as
savings-out, and nets in minus out; the summary is a function of the
transaction list and that account alone. -/
theorem C9_savings_summaries (savingsAccounts : List String) (txs : List Transaction)
    (a : String) (h : a ∈ savingsAccounts) :
    recordLookup (savingsAccountSummaries savingsAccounts txs) a
      = some
        { count := (txs.filter (fun t => t.amount.isSome && txMentionsSavingsAccount t a)).length
          inTotal := (((txs.filter (fun t =>
              txMentionsSavingsAccount t a && t.direction == TxDirection.debit)).filterMap
              Transaction.amount).map (fun q => |q|)).sum
          outTotal := (((txs.filter (fun t =>
              txMentionsSavingsAccount t a && t.direction == TxDirection.credit)).filterMap
              Transaction.amount).map (fun q => |q|)).sum
          net := (((txs.filter (fun t =>
              txMentionsSavingsAccount t a && t.direction == TxDirection.debit)).filterMap
              Transaction.amount).map (fun q => |q|)).sum
            - (((txs.filter (fun t =>
              txMentionsSavingsAccount t a && t.direction == TxDirection.credit)).filterMap
              Transaction.amount).map (fun q => |q|)).sum } := by
  unfold savingsAccountSummaries
  rw [recordLookup_foldl_insert (fun account => savingsSummaryFor txs account), if_pos h]
  have hin := absAmounts_eq (fun t => txMentionsSavingsAccount t a)
    (fun t => t.direction == TxDirection.debit) txs
  have hout := absAmounts_eq (fun t => txMentionsSavingsAccount t a)
    (fun t => t.direction == TxDirection.credit) txs
  simp only [savingsSummaryFor, hin, hout]

/-- Concrete transaction for the C9 witness: a debit mentioning a spacing and
case variant of the configured IBAN in its raw lines. -/
def witnessTx9 : Transaction :=
  { amount := some 10, direction := TxDirection.debit,
    raw_lines := ["detail ro49 aaaa 1234 x"] }

/-- Witness for C9: one configured account matched by one debit transaction
via a spacing and case variant of the IBAN in the raw lines; the summary
evaluates to one matching row, ten in, zero out, ten net. -/
theorem C9_witness :
    ("RO49AAAA1234" ∈ ["RO49AAAA1234"])
    ∧ recordLookup (savingsAccountSummaries ["RO49AAAA1234"] [witnessTx9]) "RO49AAAA1234"
      = some { count := 1, inTotal := 10, outTotal := 0, net := 10 } := by
  refine ⟨by decide, ?_⟩
  rw [C9_savings_summaries ["RO49AAAA1234"] [witnessTx9] "RO49AAAA1234" (by decide)]
  have h1 : ([witnessTx9].filter (fun t =>
      t.amount.isSome && txMentionsSavingsAccount t "RO49AAAA1234")) = [witnessTx9] := by decide
  have h2 : ([witnessTx9].filter (fun t =>
      txMentionsSavingsAccount t "RO49AAAA1234"
        && t.direction == TxDirection.debit)) = [witnessTx9] := by decide
  have h3 : ([witnessTx9].filter (fun t =>
      txMentionsSavingsAccount t "RO49AAAA1234"
        && t.direction == TxDirection.credit)) = [] := by decide
  rw [h1, h2, h3]
  norm_num [witnessTx9, List.filterMap_cons, List.filterMap_nil, List.map_cons, List.map_nil,
    List.sum_cons, List.sum_nil]

end SpendIQ
